import Mathlib

/-!
Verification of the analysis-orchestration core of the `aiagents-stock`
repository.  The Python sources are shallowly embedded: the domain aggregate
(`src/src/aiagents_stock/domain/analysis/model.py`), the DeepSeek orchestrator
(`src/src/aiagents_stock/infrastructure/ai/orchestrator.py`), the API client
(`src/src/aiagents_stock/infrastructure/ai/deepseek_client.py`), the main-force
JSON parsing helper
(`src/src/aiagents_stock/infrastructure/main_force/ai_analyzer.py`) and the
single-stock use case (`src/src/aiagents_stock/application/analysis/use_cases.py`).
Python exceptions are modelled with `Except String`; mutation is modelled by
explicit state passing.  Python `dict` values keyed by the six-valued role enum
are modelled as functions `AgentRole → Option _`; JSON values as an inductive
type with an executable parser mirroring `json.loads` on the fragments the
claims exercise.
-/

namespace AiagentsStock

/-- Embedding of the `AgentRole` enum from
`src/src/aiagents_stock/domain/analysis/model.py` (six analyst roles). -/
inductive AgentRole where
  | technical
  | fundamental
  | fund_flow
  | risk_management
  | market_sentiment
  | news_analyst
deriving DecidableEq, Repr

/-- String value of each `AgentRole` member, as in the Python `str` enum. -/
def AgentRole.value : AgentRole → String
  | .technical => "technical"
  | .fundamental => "fundamental"
  | .fund_flow => "fund_flow"
  | .risk_management => "risk_management"
  | .market_sentiment => "market_sentiment"
  | .news_analyst => "news_analyst"

/-- Embedding of the `AgentRole(value)` enum constructor: returns the member
whose value equals the given string, or fails (Python raises `ValueError`,
modelled as `none`). -/
def agentRoleOfValue (s : String) : Option AgentRole :=
  if s = "technical" then some .technical
  else if s = "fundamental" then some .fundamental
  else if s = "fund_flow" then some .fund_flow
  else if s = "risk_management" then some .risk_management
  else if s = "market_sentiment" then some .market_sentiment
  else if s = "news_analyst" then some .news_analyst
  else none

/-- All six roles, used to quantify over the keys of the review dictionary. -/
def allRoles : List AgentRole :=
  [.technical, .fundamental, .fund_flow, .risk_management, .market_sentiment, .news_analyst]

/-- Embedding of the frozen dataclass `AnalysisContent` (summary, details map,
focus areas, raw output).  The `details` map values that matter to the claims
are strings, so the map is modelled as a string association list. -/
structure AnalysisContent where
  summary : String
  details : List (String × String)
  focus_areas : List String
  raw_output : String
deriving DecidableEq, Repr

/-- Embedding of the `AgentReview` entity (role, content, agent display name).
The wall-clock `timestamp` field carries no information used by any claim and
is omitted. -/
structure AgentReview where
  role : AgentRole
  content : AnalysisContent
  agent_name : String
deriving DecidableEq, Repr

/-- Embedding of the `StockAnalysisStatus` enum. -/
inductive StockAnalysisStatus where
  | CREATED
  | IN_PROGRESS
  | COMPLETED
  | FAILED
deriving DecidableEq, Repr

/-- Embedding of the `StockInfo` value object.  The float field
`current_price` is not used by any claim and floating point is not embedded;
the string fields are kept. -/
structure StockInfo where
  symbol : String
  name : String
  sector : String
  industry : String
deriving DecidableEq, Repr

/-- Embedding of JSON values as produced by Python `json.loads` on the decision
texts.  Numbers keep their source lexeme (no floating point is computed on
them anywhere in the embedded code paths). -/
inductive Json where
  | null
  | bool (b : Bool)
  | num (lexeme : String)
  | str (s : String)
  | arr (elems : List Json)
  | obj (fields : List (String × Json))
deriving Repr

/-- Association-list lookup on the fields of a JSON object (first match),
mirroring Python `dict` key access on a parsed object. -/
def assocGet : List (String × Json) → String → Option Json
  | [], _ => none
  | (k, v) :: rest, key => if k = key then some v else assocGet rest key

/-- Lookup of a key in a JSON value: defined on objects, `none` otherwise. -/
def jsonGet (j : Json) (key : String) : Option Json :=
  match j with
  | .obj fields => assocGet fields key
  | _ => none

/-- Embedding of the mutable state of the `StockAnalysis` aggregate root
(`model.py`).  `id`, `period` and the timestamps carry no information used by
any claim; `_reviews` is the role-keyed dictionary, `team_discussion` and
`final_decision` the two optional fields, `_status` the state machine. -/
structure StockAnalysis where
  stock_info : StockInfo
  reviews : AgentRole → Option AgentReview
  team_discussion : Option String
  final_decision : Option Json
  status : StockAnalysisStatus

/-- State of a freshly constructed aggregate (`StockAnalysis.__init__`): empty
review dict, no discussion, no decision, status CREATED. -/
def freshAnalysis (info : StockInfo) : StockAnalysis :=
  { stock_info := info
    reviews := fun _ => none
    team_discussion := none
    final_decision := none
    status := .CREATED }

/-- Embedding of `StockAnalysis.start`: the guard on CREATED is a no-op
(`pass`) in the source, so the status is set to IN_PROGRESS from every state. -/
def StockAnalysis.start (a : StockAnalysis) : StockAnalysis :=
  { a with status := .IN_PROGRESS }

/-- Truthiness of the Python review dict (`not self._reviews`): the dict is
keyed by `AgentRole`, so it is non-empty exactly when some role has a review. -/
def StockAnalysis.hasReviews (a : StockAnalysis) : Bool :=
  allRoles.any fun r => (a.reviews r).isSome

/-- Embedding of `StockAnalysis.add_review`: raises on a COMPLETED aggregate,
otherwise stores the review under its role and sets status IN_PROGRESS. -/
def StockAnalysis.add_review (a : StockAnalysis) (role : AgentRole)
    (content : AnalysisContent) (agent_name : String) : Except String StockAnalysis :=
  if a.status = .COMPLETED then
    .error "Cannot add review to a completed analysis."
  else
    .ok { a with
      reviews := fun r => if r = role then some ⟨role, content, agent_name⟩ else a.reviews r
      status := .IN_PROGRESS }

/-- Embedding of `StockAnalysis.conduct_team_discussion`: raises when the
review dict is empty, otherwise records the discussion text (the status is not
changed by this operation in the source). -/
def StockAnalysis.conduct_team_discussion (a : StockAnalysis)
    (discussion_content : String) : Except String StockAnalysis :=
  if a.hasReviews = false then
    .error "Cannot conduct discussion without any reviews."
  else
    .ok { a with team_discussion := some discussion_content }

/-- Python truthiness of the optional string `self.team_discussion`: falsy for
`None` and for the empty string. -/
def pyTruthyStr : Option String → Bool
  | none => false
  | some s => !(s == "")

/-- Embedding of `StockAnalysis.finalize_decision`: raises when
`team_discussion` is falsy (`None` or empty), otherwise stores the decision and
sets status COMPLETED. -/
def StockAnalysis.finalize_decision (a : StockAnalysis) (decision : Json) :
    Except String StockAnalysis :=
  if pyTruthyStr a.team_discussion = false then
    .error "Cannot finalize decision before team discussion."
  else
    .ok { a with final_decision := some decision, status := .COMPLETED }

/-- Embedding of `StockAnalysis.fail`: unconditionally sets status FAILED (the
source has no state guard and ignores the reason beyond logging). -/
def StockAnalysis.fail (a : StockAnalysis) (_reason : String) : StockAnalysis :=
  { a with status := .FAILED }

/-- Opening brace character, written numerically. -/
def lbrace : Char := Char.ofNat 123

/-- Closing brace character, written numerically. -/
def rbrace : Char := Char.ofNat 125

/-- JSON / Python `\s` whitespace on the ASCII range (space, tab, newline,
carriage return, vertical tab, form feed); the decision texts never contain
non-ASCII whitespace. -/
def isPyWs (c : Char) : Bool :=
  c = ' ' || c = '\t' || c = '\n' || c = '\r' || c = Char.ofNat 11 || c = Char.ofNat 12

/-- Drop leading whitespace from a character list. -/
def skipWs : List Char → List Char
  | [] => []
  | c :: rest => if isPyWs c then skipWs rest else c :: rest

/-- Scan a JSON number lexeme (`-?digits(.digits)?([eE][+-]?digits)?`) as
`json.loads` accepts it, returning the lexeme and the remaining input. -/
def scanNumber (cs : List Char) : Except String (String × List Char) :=
  let (sign, cs1) :=
    match cs with
    | '-' :: r => ("-", r)
    | _ => ("", cs)
  let ds := cs1.takeWhile Char.isDigit
  let cs2 := cs1.drop ds.length
  if ds.isEmpty then .error "Expecting value" else
  let (frac, cs3) :=
    match cs2 with
    | '.' :: r =>
      let fs := r.takeWhile Char.isDigit
      if fs.isEmpty then ("", cs2) else ("." ++ String.mk fs, r.drop fs.length)
    | _ => ("", cs2)
  let (expo, cs4) :=
    match cs3 with
    | 'e' :: r =>
      let (es, r2) :=
        match r with
        | '+' :: r2 => ("e+", r2)
        | '-' :: r2 => ("e-", r2)
        | _ => ("e", r)
      let xs := r2.takeWhile Char.isDigit
      if xs.isEmpty then ("", cs3) else (es ++ String.mk xs, r2.drop xs.length)
    | 'E' :: r =>
      let (es, r2) :=
        match r with
        | '+' :: r2 => ("E+", r2)
        | '-' :: r2 => ("E-", r2)
        | _ => ("E", r)
      let xs := r2.takeWhile Char.isDigit
      if xs.isEmpty then ("", cs3) else (es ++ String.mk xs, r2.drop xs.length)
    | _ => ("", cs3)
  .ok (sign ++ String.mk ds ++ frac ++ expo, cs4)

/-- Hexadecimal digit value, for `\u` escapes (codepoint arithmetic: digits,
then lowercase, then uppercase letters). -/
def hexVal? (c : Char) : Option Nat :=
  let n := c.toNat
  if 48 ≤ n ∧ n ≤ 57 then some (n - 48)
  else if 97 ≤ n ∧ n ≤ 102 then some (n - 87)
  else if 65 ≤ n ∧ n ≤ 70 then some (n - 55)
  else none

/-- Scan the body of a JSON string after the opening quote, handling the escape
sequences `json.loads` accepts; returns the decoded string and the remaining
input.  `fuel` dominates the input length and only guards recursion. -/
def scanStringBody (fuel : Nat) (acc : List Char) (cs : List Char) :
    Except String (String × List Char) :=
  match fuel with
  | 0 => .error "Unterminated string"
  | fuel + 1 =>
    match cs with
    | [] => .error "Unterminated string starting at"
    | c :: rest =>
      if c = '"' then .ok (String.mk acc.reverse, rest)
      else if c = '\\' then
        match rest with
        | [] => .error "Unterminated string starting at"
        | e :: rest2 =>
          if e = '"' then scanStringBody fuel ('"' :: acc) rest2
          else if e = '\\' then scanStringBody fuel ('\\' :: acc) rest2
          else if e = '/' then scanStringBody fuel ('/' :: acc) rest2
          else if e = 'b' then scanStringBody fuel (Char.ofNat 8 :: acc) rest2
          else if e = 'f' then scanStringBody fuel (Char.ofNat 12 :: acc) rest2
          else if e = 'n' then scanStringBody fuel ('\n' :: acc) rest2
          else if e = 'r' then scanStringBody fuel ('\r' :: acc) rest2
          else if e = 't' then scanStringBody fuel ('\t' :: acc) rest2
          else if e = 'u' then
            match rest2 with
            | h1 :: h2 :: h3 :: h4 :: rest3 =>
              match hexVal? h1, hexVal? h2, hexVal? h3, hexVal? h4 with
              | some a, some b, some c3, some d =>
                scanStringBody fuel (Char.ofNat (a * 4096 + b * 256 + c3 * 16 + d) :: acc) rest3
              | _, _, _, _ => .error "Invalid \\uXXXX escape"
            | _ => .error "Invalid \\uXXXX escape"
          else .error "Invalid \\escape"
      else scanStringBody fuel (c :: acc) rest

/-- Result type of the recursive-descent parsing functions: a parse error
message, or a value with the remaining input. -/
abbrev JsonParseOut := Except String (Json × List Char)

/-- Consume the literal characters of `tok` at the head of the input, giving
the remainder; used for the `true` / `false` / `null` keywords. -/
def stripTok (tok : String) (input : List Char) : Option (List Char) :=
  if tok.toList.isPrefixOf input then some (input.drop tok.toList.length) else none

mutual

/-- Recursive-descent JSON value parser mirroring `json.loads` (strict mode) on
the texts the claims exercise; `fuel` dominates the input length. -/
def parseValue : Nat → List Char → JsonParseOut
  | 0, _ => .error "Expecting value: recursion limit"
  | fuel + 1, input =>
    match skipWs input with
    | [] => .error "Expecting value"
    | c :: rest =>
      if c = lbrace then
        match skipWs rest with
        | d :: rest2 =>
          if d = rbrace then .ok (.obj [], rest2)
          else parseMembers fuel (d :: rest2) []
        | [] => .error "Expecting property name enclosed in double quotes"
      else if c = '[' then
        match skipWs rest with
        | d :: rest2 =>
          if d = ']' then .ok (.arr [], rest2)
          else parseElems fuel (d :: rest2) []
        | [] => .error "Expecting value"
      else if c = '"' then
        match scanStringBody (rest.length + 1) [] rest with
        | .ok (s, rest2) => .ok (.str s, rest2)
        | .error e => .error e
      else if c = 't' then
        match stripTok "rue" rest with
        | some rest2 => .ok (.bool true, rest2)
        | none => .error "Expecting value"
      else if c = 'f' then
        match stripTok "alse" rest with
        | some rest2 => .ok (.bool false, rest2)
        | none => .error "Expecting value"
      else if c = 'n' then
        match stripTok "ull" rest with
        | some rest2 => .ok (.null, rest2)
        | none => .error "Expecting value"
      else if c = '-' || c.isDigit then
        match scanNumber (c :: rest) with
        | .ok (lex, rest2) => .ok (.num lex, rest2)
        | .error e => .error e
      else .error "Expecting value"

/-- Parse the members of a JSON object after its opening brace (first member
about to start); trailing commas are rejected exactly as by `json.loads`. -/
def parseMembers : Nat → List Char → List (String × Json) → JsonParseOut
  | 0, _, _ => .error "Expecting value: recursion limit"
  | fuel + 1, input, acc =>
    match skipWs input with
    | [] => .error "Expecting property name enclosed in double quotes"
    | c :: rest =>
      if c = '"' then
        match scanStringBody (rest.length + 1) [] rest with
        | .error e => .error e
        | .ok (key, rest2) =>
          match skipWs rest2 with
          | ':' :: rest3 =>
            match parseValue fuel rest3 with
            | .error e => .error e
            | .ok (v, rest4) =>
              match skipWs rest4 with
              | ',' :: rest5 => parseMembers fuel rest5 (acc ++ [(key, v)])
              | d :: rest5 =>
                if d = rbrace then .ok (.obj (acc ++ [(key, v)]), rest5)
                else .error "Expecting , delimiter"
              | [] => .error "Expecting , delimiter"
          | _ => .error "Expecting : delimiter"
      else .error "Expecting property name enclosed in double quotes"

/-- Parse the elements of a JSON array after its opening bracket (first element
about to start); trailing commas are rejected exactly as by `json.loads`. -/
def parseElems : Nat → List Char → List Json → JsonParseOut
  | 0, _, _ => .error "Expecting value: recursion limit"
  | fuel + 1, input, acc =>
    match parseValue fuel input with
    | .error e => .error e
    | .ok (v, rest) =>
      match skipWs rest with
      | ',' :: rest2 => parseElems fuel rest2 (acc ++ [v])
      | ']' :: rest2 => .ok (.arr (acc ++ [v]), rest2)
      | _ => .error "Expecting , delimiter"

end

/-- Embedding of `json.loads`: parse one JSON value and require only
whitespace to follow. -/
def jsonLoads (s : String) : Except String Json :=
  let cs := s.toList
  match parseValue (2 * cs.length + 8) cs with
  | .error e => .error e
  | .ok (j, rest) =>
    match skipWs rest with
    | [] => .ok j
    | _ => .error "Extra data"

/-- Embedding of the chat-completion message returned by the upstream API in
`DeepSeekClient.call_api` (`deepseek_client.py`): optional reasoning content
and optional final content. -/
structure ChatMessage where
  reasoning_content : Option String
  content : Option String
deriving DecidableEq, Repr

/-- Embedding of `DeepSeekClient.call_api` (`deepseek_client.py` lines 38-76)
applied to the settled outcome of the underlying network call: an exception is
caught and rendered as the string `"API调用失败: " ++ e`; a successful message
is concatenated from its truthy parts, with the literal `"API返回空响应"`
replacing an empty result.  The function always returns an ordinary string. -/
def call_api (resp : Except String ChatMessage) : String :=
  match resp with
  | .error e => "API调用失败: " ++ e
  | .ok message =>
    let result := ""
    let result :=
      match message.reasoning_content with
      | some rc => if rc = "" then result else result ++ "【推理过程】\n" ++ rc ++ "\n\n"
      | none => result
    let result :=
      match message.content with
      | some c => if c = "" then result else result ++ c
      | none => result
    if result = "" then "API返回空响应" else result

/-- Embedding of `re.sub(",\\s*" ++ close, close, s)` for a closing brace or
bracket `close`, as used by the local JSON cleanup in
`MainForceAIAnalyzer._parse_json_response`: each comma followed by optional
whitespace and `close` collapses to `close`; `fuel` dominates the input
length. -/
def subCommaClose (close : Char) : Nat → List Char → List Char
  | 0, cs => cs
  | _, [] => []
  | fuel + 1, c :: rest =>
    if c = ',' then
      let ws := rest.takeWhile isPyWs
      match rest.drop ws.length with
      | d :: rest3 =>
        if d = close then close :: subCommaClose close fuel rest3
        else c :: subCommaClose close fuel rest
      | [] => c :: subCommaClose close fuel rest
    else c :: subCommaClose close fuel rest

/-- Embedding of single-character `str.replace` over the whole string. -/
def pyReplaceChar (a b : Char) (cs : List Char) : List Char :=
  cs.map fun c => if c = a then b else c

/-- Embedding of the cleanup block of
`MainForceAIAnalyzer._parse_json_response` (`ai_analyzer.py` lines 291-297):
strip trailing commas before closing braces and brackets, then perform the two
`replace` calls of the source.  NOTE: in the source both `replace` calls are
literally `fixed_str.replace('"', '"')` — the ASCII double quote replaced by
itself — although the adjacent comment says they should replace the fullwidth
quotes; they are therefore identity maps, embedded as such. -/
def cleanupJson (s : String) : String :=
  let l := s.toList
  let l1 := subCommaClose rbrace (l.length + 1) l
  let l2 := subCommaClose ']' (l1.length + 1) l1
  let l3 := pyReplaceChar '"' '"' l2
  let l4 := pyReplaceChar '"' '"' l3
  String.mk l4

/-- Index of the first occurrence of `pat` in `cs` starting at offset `i`,
mirroring `str.find` / the scan of `re.search`. -/
def findSubAux (pat : List Char) : List Char → Nat → Option Nat
  | [], i => if pat.isEmpty then some i else none
  | c :: rest, i =>
    if pat.isPrefixOf (c :: rest) then some i else findSubAux pat rest (i + 1)

/-- Index of the first occurrence of `pat` in `cs`, or `none`. -/
def findSub (pat : List Char) (cs : List Char) : Option Nat :=
  findSubAux pat cs 0

/-- Index of the first occurrence of character `c`, as `str.find`. -/
def firstIdx (c : Char) (cs : List Char) : Option Nat :=
  findSub [c] cs

/-- Index of the last occurrence of character `c`, as `str.rfind`. -/
def lastIdx (c : Char) (cs : List Char) : Option Nat :=
  match findSub [c] cs.reverse with
  | some i => some (cs.length - 1 - i)
  | none => none

/-- Backquote character, written numerically. -/
def backquote : Char := Char.ofNat 96

/-- Remove a trailing run of whitespace, for the `\s*` preceding the closing
code fence in the code-block regex. -/
def dropTrailingWs (cs : List Char) : List Char :=
  (cs.reverse.dropWhile isPyWs).reverse

/-- Lowercasing test for the optional case-insensitive `json` tag after the
opening code fence. -/
def startsWithJsonCI (cs : List Char) : Bool :=
  match cs with
  | a :: b :: c :: d :: _ =>
    a.toLower = 'j' && b.toLower = 's' && c.toLower = 'o' && d.toLower = 'n'
  | _ => false

/-- Embedding of the code-block extraction regex of
`MainForceAIAnalyzer._parse_json_response`: an opening triple-backquote fence,
an optional case-insensitive `json` tag, optional whitespace, then a lazily
captured body up to optional whitespace and a closing fence. -/
def codeBlockExtract (response : String) : Option String :=
  let cs := response.toList
  let fence := [backquote, backquote, backquote]
  match findSub fence cs with
  | none => none
  | some i =>
    let afterOpen := cs.drop (i + 3)
    let afterTag := if startsWithJsonCI afterOpen then afterOpen.drop 4 else afterOpen
    let body := skipWs afterTag
    match findSub fence body with
    | none => none
    | some p => some (String.mk (dropTrailingWs (body.take p)))

/-- Embedding of the outer-braces candidate of
`MainForceAIAnalyzer._parse_json_response`: `response.find("\x7b")` and
`response.rfind("\x7d")`, slicing inclusively when both exist in order. -/
def bracesSlice (response : String) : Option String :=
  let cs := response.toList
  match firstIdx lbrace cs, lastIdx rbrace cs with
  | some i, some j => if i < j then some (String.mk ((cs.drop i).take (j - i + 1))) else none
  | _, _ => none

/-- Candidate loop of `MainForceAIAnalyzer._parse_json_response`: each
candidate is tried with `json.loads`, then once more after local cleanup; the
last cleanup error is remembered for the final `ValueError` message. -/
def parseCandidates : List String → Option String → Except String Json
  | [], lastErr =>
    .error ("无法从响应中解析出有效的JSON: " ++
      (match lastErr with
       | some e => e
       | none => "None"))
  | c :: rest, _ =>
    match jsonLoads c with
    | .ok j => .ok j
    | .error _ =>
      match jsonLoads (cleanupJson c) with
      | .ok j => .ok j
      | .error e => parseCandidates rest (some e)

/-- Embedding of `MainForceAIAnalyzer._parse_json_response`
(`ai_analyzer.py` lines 267-302).  The class holds a network client
(`self.client`), passed here as `_client`; the parsing routine never invokes
it, and the second component of the result counts the network (Gateway) calls
it performs — identically zero by the structure of the source. -/
def parseJsonResponse (_client : String → String) (response : String) :
    Except String Json × Nat :=
  let candidates :=
    (match codeBlockExtract response with
     | some c => [c]
     | none => []) ++
    (match bracesSlice response with
     | some c => [c]
     | none => []) ++ [response]
  (parseCandidates candidates none, 0)

/-- Embedding of the ad hoc `ReviewResult` wrapper built by
`DeepSeekAnalysisOrchestrator._create_review_result` and returned by each
analyst task to the coordinating thread. -/
structure ReviewResult where
  content : AnalysisContent
  agent_name : String
deriving DecidableEq, Repr

/-- Canonical role order used by
`DeepSeekAnalysisOrchestrator._conduct_team_discussion` (`ordered_roles`). -/
def orderedRoles : List AgentRole :=
  [.technical, .fundamental, .fund_flow, .risk_management, .market_sentiment, .news_analyst]

/-- Embedding of the summary-accumulation loop of
`_conduct_team_discussion`: iterate the canonical role order and append each
present review's display name and summary. -/
def agentsSummary (reviews : AgentRole → Option AgentReview) : String :=
  orderedRoles.foldl
    (fun acc role =>
      match reviews role with
      | some review => acc ++ "\n【" ++ review.agent_name ++ "】:\n" ++ review.content.summary ++ "\n"
      | none => acc)
    ""

/-- Modelled from the spec: the source imports `TEAM_DISCUSSION_PROMPT` from
`aiagents_stock.infrastructure.ai.prompts`, a module whose file is not present
under `src/`; per the spec the discussion prompt is a fixed template
instantiated with the stock symbol, the stock name and the canonical-order
concatenation of the analyst summaries.  The template text itself decides no
claim; any fixed template yields the same verdicts. -/
def TEAM_DISCUSSION_PROMPT_format (symbol name agents_analysis_text : String) : String :=
  "股票代码: " ++ symbol ++ "\n股票名称: " ++ name ++
    "\n各位分析师的观点如下:\n" ++ agents_analysis_text ++ "\n请主持团队讨论并给出综合结论。"

/-- Modelled from the spec: the source imports `FINAL_DECISION_PROMPT` from
the missing `prompts` module; per the spec the decision prompt is a fixed
template instantiated with the stock identity, the discussion text and a
handful of indicator strings (missing indicators render as `"N/A"`). -/
def FINAL_DECISION_PROMPT_format
    (symbol name comprehensive_discussion ma20 bb_upper bb_lower : String) : String :=
  "股票代码: " ++ symbol ++ "\n股票名称: " ++ name ++
    "\n综合讨论:\n" ++ comprehensive_discussion ++
    "\nMA20: " ++ ma20 ++ "\n布林上轨: " ++ bb_upper ++ "\n布林下轨: " ++ bb_lower ++
    "\n请给出最终投资决策, 按JSON格式输出。"

/-- Embedding of `indicators.get(key, "N/A")` on the data bundle's indicator
dictionary. -/
def indicatorGet (ind : String → Option String) (key : String) : String :=
  match ind key with
  | some v => v
  | none => "N/A"

/-- Embedding of `re.search("\\x7b.*\\x7d", response, re.DOTALL)` in
`DeepSeekAnalysisOrchestrator._make_final_decision`: with the greedy dot-all
pattern the match, when it exists, runs from the first opening brace to the
last closing brace, provided the latter comes later. -/
def jsonMatch (response : String) : Option String :=
  let cs := response.toList
  match firstIdx lbrace cs, lastIdx rbrace cs with
  | some i, some j => if i < j then some (String.mk ((cs.drop i).take (j - i + 1))) else none
  | _, _ => none

/-- Embedding of the `try`/`except` body of
`DeepSeekAnalysisOrchestrator._make_final_decision` applied to the raw decision
response: locate a JSON object and finalize with the parsed value, or finalize
with a text-only payload when no object is found; any exception from the `try`
block (a JSON decode error, or an invariant error raised by
`finalize_decision` itself) is caught and answered by finalizing with a
text-plus-error payload, whose own invariant error, if any, propagates.  The
result pairs the aggregate state with the propagated exception, if one. -/
def finalizeFromResponse (a : StockAnalysis) (response : String) :
    StockAnalysis × Option String :=
  let firstAttempt : Except String StockAnalysis :=
    match jsonMatch response with
    | some sub =>
      match jsonLoads sub with
      | .ok decision_json => a.finalize_decision decision_json
      | .error e => .error e
    | none => a.finalize_decision (Json.obj [("decision_text", Json.str response)])
  match firstAttempt with
  | .ok a2 => (a2, none)
  | .error e =>
    match a.finalize_decision
        (Json.obj [("decision_text", Json.str response), ("error", Json.str e)]) with
    | .ok a2 => (a2, none)
    | .error e2 => (a, some e2)

/-- Embedding of `DeepSeekAnalysisOrchestrator._make_final_decision`: format
the decision prompt, obtain the raw decision text from the generation gateway
(`llm system user` is `LLMClient.call_chat` on the two messages), then parse
and finalize as in `finalizeFromResponse`. -/
def makeFinalDecision (llm : String → String → String) (ind : String → Option String)
    (a : StockAnalysis) (discussion_text : String) : StockAnalysis × Option String :=
  let prompt := FINAL_DECISION_PROMPT_format a.stock_info.symbol a.stock_info.name
    discussion_text (indicatorGet ind "ma20") (indicatorGet ind "bb_upper")
    (indicatorGet ind "bb_lower")
  let response := llm "你是一名专业的投资决策专家，需要给出明确、可执行的投资建议。" prompt
  finalizeFromResponse a response

/-- Embedding of `DeepSeekAnalysisOrchestrator._conduct_team_discussion`: build
the canonical-order summary, obtain the discussion text from the gateway,
record it on the aggregate (which raises when no reviews exist — the raised
exception is returned alongside the unchanged state), then run the final
decision step. -/
def conductTeamDiscussionStep (llm : String → String → String)
    (ind : String → Option String) (a : StockAnalysis) : StockAnalysis × Option String :=
  let summary := agentsSummary a.reviews
  let prompt := TEAM_DISCUSSION_PROMPT_format a.stock_info.symbol a.stock_info.name summary
  let discussion_text := llm "你现在是股票分析团队的主持人。" prompt
  match a.conduct_team_discussion discussion_text with
  | .error e => (a, some e)
  | .ok a2 => makeFinalDecision llm ind a2 discussion_text

/-- Success test of a settled analyst task: true when the future returned a
review wrapper, false when it raised. -/
def taskSucceeded (e : Except String ReviewResult) : Bool :=
  match e with
  | .ok _ => true
  | .error _ => false

/-- Embedding of one step of the fan-out merge loop of
`DeepSeekAnalysisOrchestrator.perform_analysis`: each settled analyst task
either produced a `ReviewResult` (merged with `add_review`) or raised (logged
and skipped); the `try` block also swallows any exception `add_review` itself
raises.  The settlement order of `as_completed` is arbitrary; it is taken here
as the order of `enabled`, and the theorems established about the result are
order-independent. -/
def mergeTask (tasks : AgentRole → Except String ReviewResult)
    (acc : StockAnalysis) (role : AgentRole) : StockAnalysis :=
  match tasks role with
  | .ok r =>
    match acc.add_review role r.content r.agent_name with
    | .ok acc2 => acc2
    | .error _ => acc
  | .error _ => acc

/-- Fold of `mergeTask` over the enabled roles, completing the embedding of
the fan-out merge loop. -/
def applyTaskResults (tasks : AgentRole → Except String ReviewResult)
    (enabled : List AgentRole) (a : StockAnalysis) : StockAnalysis :=
  enabled.foldl (mergeTask tasks) a

/-- Embedding of `DeepSeekAnalysisOrchestrator.perform_analysis`
(`orchestrator.py` lines 57-86): start the aggregate, fan out one task per
enabled role (a worker pool sized to zero roles raises at construction, after
`start`), merge the settled results, then run the discussion and decision
steps.  `tasks` gives the settled outcome of each analyst task (the analyst
prompt formatting inside `_run_agent` affects only the text each task sends to
the gateway, not the claims); `llm` is the generation gateway; `ind` the
indicator dictionary of the data bundle.  The result pairs the final aggregate
state with the exception propagating out of `perform_analysis`, if any. -/
def performAnalysis (llm : String → String → String)
    (tasks : AgentRole → Except String ReviewResult) (ind : String → Option String)
    (enabled : List AgentRole) (a : StockAnalysis) : StockAnalysis × Option String :=
  let a1 := a.start
  if enabled.isEmpty then
    (a1, some "max_workers must be greater than 0")
  else
    conductTeamDiscussionStep llm ind (applyTaskResults tasks enabled a1)

/-- Number of entries of the review dictionary (`len(analysis.reviews)`). -/
def reviewCount (a : StockAnalysis) : Nat :=
  (allRoles.filter fun r => (a.reviews r).isSome).length

/-- Embedding of the request-key-to-role mapping `role_mapping` of
`AnalyzeSingleStockUseCase.execute` (`use_cases.py` lines 146-153). -/
def role_mapping : List (String × AgentRole) :=
  [("technical", .technical), ("fundamental", .fundamental), ("fund_flow", .fund_flow),
   ("risk", .risk_management), ("sentiment", .market_sentiment), ("news", .news_analyst)]

/-- Association lookup mirroring `role_key in role_mapping` followed by
`role_mapping[role_key]`. -/
def mappingGet : List (String × AgentRole) → String → Option AgentRole
  | [], _ => none
  | (k, v) :: rest, key => if k = key then some v else mappingGet rest key

/-- Embedding of the `enabled_roles` accumulation loop of
`AnalyzeSingleStockUseCase.execute` (`use_cases.py` lines 155-165): for each
enabled request key, use the mapping, else try the `AgentRole` constructor,
else silently skip (`except ValueError: pass`). -/
def enabledRolesOf (enabled : List (String × Bool)) : List AgentRole :=
  enabled.foldl
    (fun acc kv =>
      if kv.2 then
        match mappingGet role_mapping kv.1 with
        | some r => acc ++ [r]
        | none =>
          match agentRoleOfValue kv.1 with
          | some r => acc ++ [r]
          | none => acc
      else acc)
    []

/-- Unwrap an `Except`-returning aggregate operation with a default, used only
to build concrete test fixtures. -/
def okOr (d : StockAnalysis) : Except String StockAnalysis → StockAnalysis
  | .ok a => a
  | .error _ => d

/-- Concrete stock used by the witnesses (mirrors the repository's own test
fixture). -/
def info0 : StockInfo :=
  { symbol := "000001", name := "Test Stock", sector := "", industry := "" }

/-- Concrete review content used by the witnesses. -/
def content0 : AnalysisContent :=
  { summary := "summary text", details := [], focus_areas := ["技术指标"], raw_output := "raw text" }

/-- Second concrete review content, for order-permutation witnesses. -/
def content1 : AnalysisContent :=
  { summary := "another summary", details := [], focus_areas := [], raw_output := "raw 2" }

/-- Freshly constructed concrete aggregate. -/
def a0 : StockAnalysis := freshAnalysis info0

/-- Gateway stub returning a fixed non-JSON text for every call (the
repository's own mock). -/
def llm0 : String → String → String := fun _ _ => "Mock Analysis Result"

/-- Empty indicator dictionary. -/
def ind0 : String → Option String := fun _ => none

/-- Concrete aggregate holding one technical review (built through the
aggregate operations). -/
def aWithReview : StockAnalysis :=
  okOr a0 ((a0.start).add_review .technical content0 "技术分析师")

/-- Concrete aggregate holding one review and a non-empty discussion. -/
def aWithDiscussion : StockAnalysis :=
  okOr a0 (aWithReview.conduct_team_discussion "team view")

/-- Concrete COMPLETED aggregate reached through the normal operation
sequence. -/
def completed0 : StockAnalysis :=
  okOr a0 (aWithDiscussion.finalize_decision (Json.obj [("rating", Json.str "买入")]))

/-- Concrete settled task outcomes: the technical task raised, the fundamental
task produced a review. -/
def tasks0 : AgentRole → Except String ReviewResult
  | .technical => .error "boom"
  | .fundamental => .ok { content := content1, agent_name := "基本面分析师" }
  | _ => .error "disabled"

/-- One `add_review` application as performed by the coordinating thread for a
settled review (role, content, display name); exceptions from `add_review` are
swallowed by the surrounding `try` block, as in the merge loop. -/
def addReviewStep (acc : StockAnalysis) (item : AgentRole × AnalysisContent × String) :
    StockAnalysis :=
  match acc.add_review item.1 item.2.1 item.2.2 with
  | .ok a2 => a2
  | .error _ => acc

/-- Application of a sequence of settled reviews to the aggregate in a given
completion order; the discussion step later reads the resulting review
dictionary in the canonical role order only. -/
def addReviews (items : List (AgentRole × AnalysisContent × String))
    (a : StockAnalysis) : StockAnalysis :=
  items.foldl addReviewStep a

/-! Helper lemmas shared by the claim theorems. -/

theorem mem_allRoles (r : AgentRole) : r ∈ allRoles := by
  cases r <;> simp [allRoles]

theorem allRoles_nodup : allRoles.Nodup := by decide

theorem call_api_ne_empty (resp : Except String ChatMessage) : call_api resp ≠ "" := by
  match resp with
  | .error e =>
    intro h
    have h2 := congrArg String.data h
    simp only [call_api, String.data_append] at h2
    exact absurd (List.append_eq_nil.mp h2).1 (by decide)
  | .ok m =>
    dsimp only [call_api]
    split
    · decide
    · next h => exact h

theorem hasReviews_eq_false_of_none (a : StockAnalysis)
    (h : ∀ r, a.reviews r = none) : a.hasReviews = false := by
  simp [StockAnalysis.hasReviews, h]

theorem hasReviews_eq_true_of_isSome (a : StockAnalysis) (r : AgentRole)
    (h : (a.reviews r).isSome = true) : a.hasReviews = true := by
  simp only [StockAnalysis.hasReviews, List.any_eq_true]
  exact ⟨r, mem_allRoles r, h⟩

/-! Claim C4. -/

/-- Claim C4 counterexample: a failure of the underlying call is rendered as
the ordinary string `"API调用失败: timeout"`, which coincides with a possible
successfully generated text, so the Orchestrator cannot distinguish the two
outcomes; the claim that failures surface as a typed error distinguishable
from any generated text is false for `call_api`. -/
theorem C4_counterexample_failure_indistinguishable :
    call_api (.error "timeout")
      = call_api (.ok { reasoning_content := none, content := some "API调用失败: timeout" }) := by
  decide

/-- Claim C4 (amended): a failure of the underlying generation call surfaces
from `call_api` as the ordinary string `"API调用失败: " ++ e`; the result is
never the empty string, but it is not a typed error: some failure renders
identically to some successful generation. -/
theorem C4_amended_failure_is_nonempty_string :
    (∀ e, call_api (.error e) = "API调用失败: " ++ e)
    ∧ (∀ resp, call_api resp ≠ "")
    ∧ (∃ e m, call_api (.error e) = call_api (.ok m)) :=
  ⟨fun _ => rfl, call_api_ne_empty,
   ⟨"timeout", { reasoning_content := none, content := some "API调用失败: timeout" }, by decide⟩⟩

/-! Claim C5. -/

/-- Claim C5 counterexample: `fail` does move a fresh aggregate to FAILED, but
FAILED is not terminal — a subsequent `start` moves the aggregate back to
IN_PROGRESS, so the claim that no subsequent operation changes a FAILED
aggregate's status is false. -/
theorem C5_counterexample_failed_not_terminal :
    (a0.fail "reason").status = .FAILED
    ∧ ((a0.fail "reason").start).status = .IN_PROGRESS
    ∧ StockAnalysisStatus.IN_PROGRESS ≠ .FAILED :=
  ⟨rfl, rfl, by decide⟩

/-- Claim C5 (amended): `fail` is callable from every state (including the
terminal ones) and always sets FAILED, and FAILED is not terminal: `start`
moves any aggregate (in particular a FAILED one) to IN_PROGRESS, `add_review`
succeeds on a FAILED aggregate and moves it to IN_PROGRESS, while
`conduct_team_discussion` preserves the status when it succeeds. -/
theorem C5_amended_failed_not_terminal :
    (∀ a r, (StockAnalysis.fail a r).status = .FAILED)
    ∧ (∀ a : StockAnalysis, (a.start).status = .IN_PROGRESS)
    ∧ (∀ (a : StockAnalysis) r c n, a.status = .FAILED →
        a.add_review r c n
          = .ok { a with
              reviews := fun x => if x = r then some ⟨r, c, n⟩ else a.reviews x
              status := .IN_PROGRESS })
    ∧ (∀ (a : StockAnalysis) t a2, a.conduct_team_discussion t = .ok a2 →
        a2.status = a.status) := by
  refine ⟨fun _ _ => rfl, fun _ => rfl, ?_, ?_⟩
  · intro a r c n h
    simp [StockAnalysis.add_review, h]
  · intro a t a2 h
    unfold StockAnalysis.conduct_team_discussion at h
    split at h
    · exact absurd h (by simp)
    · cases h
      rfl

/-- Claim C5 amended witness: the amended statement applied to a concretely
failed aggregate. -/
theorem C5_amended_witness :
    (a0.fail "reason").add_review AgentRole.technical content0 "技术分析师"
      = .ok { (a0.fail "reason") with
          reviews := fun x =>
            if x = AgentRole.technical then some ⟨AgentRole.technical, content0, "技术分析师"⟩
            else (a0.fail "reason").reviews x
          status := .IN_PROGRESS }
    ∧ aWithDiscussion.status = aWithReview.status :=
  ⟨C5_amended_failed_not_terminal.2.2.1 (a0.fail "reason") AgentRole.technical content0
    "技术分析师" rfl,
   C5_amended_failed_not_terminal.2.2.2 aWithReview "team view" aWithDiscussion rfl⟩

/-! Claim C9. -/

/-- Claim C9 (confirmed): in the single-stock use case, an enabled request key
that is neither one of the recognized mapping keys nor a valid `AgentRole`
value contributes no analyst role — the enabled-role list is the same as if
the entry were absent — and no error is raised (the accumulation is a total
function). -/
theorem C9_unknown_keys_silently_dropped (xs ys : List (String × Bool)) (k : String)
    (h1 : mappingGet role_mapping k = none) (h2 : agentRoleOfValue k = none) :
    enabledRolesOf (xs ++ (k, true) :: ys) = enabledRolesOf (xs ++ ys) := by
  unfold enabledRolesOf
  rw [List.foldl_append, List.foldl_append, List.foldl_cons]
  congr 1
  simp [h1, h2]

/-- Claim C9 witness: the unknown enabled key `"quant"` is dropped between two
recognized entries. -/
theorem C9_witness :
    enabledRolesOf ([("technical", true)] ++ ("quant", true) :: [("news", true)])
      = enabledRolesOf ([("technical", true)] ++ [("news", true)]) :=
  C9_unknown_keys_silently_dropped [("technical", true)] [("news", true)] "quant" rfl rfl

/-! Claim C10. -/

/-- Claim C10 (confirmed): with at least one review present,
`conduct_team_discussion ""` succeeds and records the empty string, yet a
subsequent `finalize_decision` raises the invariant error (the empty string is
falsy), and the status is unchanged — in particular it does not become
COMPLETED by these two calls. -/
theorem C10_empty_discussion_blocks_finalize (a : StockAnalysis)
    (hrev : a.hasReviews = true) :
    a.conduct_team_discussion "" = .ok { a with team_discussion := some "" }
    ∧ (∀ d, ({ a with team_discussion := some "" } : StockAnalysis).finalize_decision d
        = .error "Cannot finalize decision before team discussion.")
    ∧ ({ a with team_discussion := some "" } : StockAnalysis).status = a.status := by
  refine ⟨?_, ?_, rfl⟩
  · simp [StockAnalysis.conduct_team_discussion, hrev]
  · intro d
    simp [StockAnalysis.finalize_decision, pyTruthyStr]

/-- Claim C10 witness: the statement applied to a concrete aggregate holding
one technical review. -/
theorem C10_witness :
    aWithReview.conduct_team_discussion ""
        = .ok { aWithReview with team_discussion := some "" }
    ∧ (∀ d, ({ aWithReview with team_discussion := some "" } : StockAnalysis).finalize_decision d
        = .error "Cannot finalize decision before team discussion.")
    ∧ ({ aWithReview with team_discussion := some "" } : StockAnalysis).status
        = aWithReview.status :=
  C10_empty_discussion_blocks_finalize aWithReview rfl

/-! Claim C2. -/

/-- Claim C2 counterexample: `completed0` is a COMPLETED aggregate reached
through the normal operation sequence, and both a second
`conduct_team_discussion` and a second `finalize_decision` succeed on it, so
the claim that neither can succeed after completion is false. -/
theorem C2_counterexample_second_ops_succeed :
    completed0.status = .COMPLETED
    ∧ (∃ a2, completed0.conduct_team_discussion "second discussion" = .ok a2)
    ∧ (∃ a2, completed0.finalize_decision (Json.obj [("rating", Json.str "卖出")]) = .ok a2) := by
  refine ⟨rfl, ⟨_, rfl⟩, ⟨_, rfl⟩⟩

/-- Claim C2 (amended): `finalize_decision` is the only operation that moves an
aggregate into COMPLETED (`start` always yields IN_PROGRESS, a successful
`add_review` yields IN_PROGRESS, a successful `conduct_team_discussion`
preserves the status, `fail` yields FAILED, and a successful
`finalize_decision` yields COMPLETED); `add_review` on a COMPLETED aggregate
raises the invariant error; but COMPLETED is terminal only in the weak sense
that repeated `conduct_team_discussion` and `finalize_decision` calls, which
do succeed, leave the status COMPLETED. -/
theorem C2_amended_only_finalize_completes :
    (∀ a : StockAnalysis, (a.start).status ≠ .COMPLETED)
    ∧ (∀ (a : StockAnalysis) r c n a2, a.add_review r c n = .ok a2 →
        a2.status = .IN_PROGRESS)
    ∧ (∀ (a : StockAnalysis) t a2, a.conduct_team_discussion t = .ok a2 →
        a2.status = a.status)
    ∧ (∀ (a : StockAnalysis) r, (StockAnalysis.fail a r).status = .FAILED)
    ∧ (∀ (a : StockAnalysis) d a2, a.finalize_decision d = .ok a2 →
        a2.status = .COMPLETED)
    ∧ (∀ (a : StockAnalysis) r c n, a.status = .COMPLETED →
        a.add_review r c n = .error "Cannot add review to a completed analysis.")
    ∧ (∀ (a : StockAnalysis) t a2, a.status = .COMPLETED →
        a.conduct_team_discussion t = .ok a2 → a2.status = .COMPLETED)
    ∧ (∀ (a : StockAnalysis) d a2, a.status = .COMPLETED →
        a.finalize_decision d = .ok a2 → a2.status = .COMPLETED) := by
  refine ⟨?_, ?_, ?_, fun _ _ => rfl, ?_, ?_, ?_, ?_⟩
  · intro a
    simp [StockAnalysis.start]
  · intro a r c n a2 h
    unfold StockAnalysis.add_review at h
    split at h
    · exact absurd h (by simp)
    · cases h
      rfl
  · intro a t a2 h
    unfold StockAnalysis.conduct_team_discussion at h
    split at h
    · exact absurd h (by simp)
    · cases h
      rfl
  · intro a d a2 h
    unfold StockAnalysis.finalize_decision at h
    split at h
    · exact absurd h (by simp)
    · cases h
      rfl
  · intro a r c n h
    simp [StockAnalysis.add_review, h]
  · intro a t a2 hc h
    unfold StockAnalysis.conduct_team_discussion at h
    split at h
    · exact absurd h (by simp)
    · cases h
      exact hc
  · intro a d a2 _ h
    unfold StockAnalysis.finalize_decision at h
    split at h
    · exact absurd h (by simp)
    · cases h
      rfl

/-- Claim C2 amended witness: each guarded part of the amended statement
applied to the concretely constructed aggregates. -/
theorem C2_amended_witness :
    aWithReview.status = .IN_PROGRESS
    ∧ aWithDiscussion.status = aWithReview.status
    ∧ completed0.status = .COMPLETED
    ∧ completed0.add_review AgentRole.fundamental content1 "基本面分析师"
        = .error "Cannot add review to a completed analysis."
    ∧ ({ completed0 with team_discussion := some "second" } : StockAnalysis).status
        = .COMPLETED
    ∧ ({ completed0 with final_decision := some (Json.obj []), status := .COMPLETED } :
        StockAnalysis).status = .COMPLETED :=
  ⟨C2_amended_only_finalize_completes.2.1 a0.start AgentRole.technical content0 "技术分析师"
      aWithReview rfl,
   C2_amended_only_finalize_completes.2.2.1 aWithReview "team view" aWithDiscussion rfl,
   C2_amended_only_finalize_completes.2.2.2.2.1 aWithDiscussion
      (Json.obj [("rating", Json.str "买入")]) completed0 rfl,
   C2_amended_only_finalize_completes.2.2.2.2.2.1 completed0 AgentRole.fundamental content1
      "基本面分析师" rfl,
   C2_amended_only_finalize_completes.2.2.2.2.2.2.1 completed0 "second"
      { completed0 with team_discussion := some "second" } rfl rfl,
   C2_amended_only_finalize_completes.2.2.2.2.2.2.2 completed0 (Json.obj [])
      { completed0 with final_decision := some (Json.obj []), status := .COMPLETED } rfl rfl⟩

/-! Claim C3. -/

/-- Claim C3 counterexample: on the input `"Mock Analysis Result"` (no JSON
object present) the decision step finalizes with the payload
`decision_text ↦ raw text` only — the payload has no `"error"` key at all, so
the claim that it contains a non-empty parse-error marker is false.  This
matches the repository's own test, which checks exactly the `decision_text`
entry of this payload. -/
theorem C3_counterexample_no_error_key :
    (finalizeFromResponse aWithDiscussion "Mock Analysis Result").1.final_decision
        = some (Json.obj [("decision_text", Json.str "Mock Analysis Result")])
    ∧ jsonGet (Json.obj [("decision_text", Json.str "Mock Analysis Result")]) "error" = none
    ∧ (finalizeFromResponse aWithDiscussion "Mock Analysis Result").2 = none :=
  ⟨rfl, rfl, rfl⟩

/-- Claim C3 (amended): when the raw decision text contains no brace-delimited
JSON match, the decision step finalizes (on an aggregate whose discussion is
truthy) with the payload containing the original raw text under
`"decision_text"` and no `"error"` key; the `"error"` key is produced only on
the exception path, i.e. when a located JSON substring fails to parse. -/
theorem C3_amended_text_only_payload (a : StockAnalysis) (response : String)
    (hmatch : jsonMatch response = none)
    (htd : pyTruthyStr a.team_discussion = true) :
    finalizeFromResponse a response
      = ({ a with
            final_decision := some (Json.obj [("decision_text", Json.str response)])
            status := .COMPLETED }, none)
    ∧ jsonGet (Json.obj [("decision_text", Json.str response)]) "error" = none := by
  constructor
  · unfold finalizeFromResponse
    rw [hmatch]
    simp [StockAnalysis.finalize_decision, htd]
  · simp [jsonGet, assocGet]

/-- Claim C3 amended witness: the amended statement applied to the concrete
raw text `"Mock Analysis Result"` and an aggregate with a non-empty
discussion. -/
theorem C3_amended_witness :
    finalizeFromResponse aWithDiscussion "Mock Analysis Result"
      = ({ aWithDiscussion with
            final_decision := some (Json.obj [("decision_text", Json.str "Mock Analysis Result")])
            status := .COMPLETED }, none)
    ∧ jsonGet (Json.obj [("decision_text", Json.str "Mock Analysis Result")]) "error" = none :=
  C3_amended_text_only_payload aWithDiscussion "Mock Analysis Result" rfl rfl

/-! Claim C6. -/

/-- Claim C6 (code bug): the local cleanup of the decision parser strips
trailing commas before closing braces and brackets and performs no network
call — an input whose only defect is a trailing comma before the closing brace
parses successfully with a Gateway call count of zero — but the claimed
normalization of non-ASCII quote characters never happens: both `replace`
calls of the source replace the ASCII double quote by itself (contradicting
the comment above them in the source), so the cleanup is the identity on an
input whose only defect is a pair of fullwidth quotes, and that input fails to
parse. -/
theorem C6_cleanup_strips_trailing_commas_without_gateway :
    (∀ client response, (parseJsonResponse client response).2 = 0)
    ∧ parseJsonResponse (fun _ => "") "\x7b\"rating\": \"买入\",\x7d"
        = (.ok (Json.obj [("rating", Json.str "买入")]), 0)
    ∧ cleanupJson "\x7b\"rating\": “买入”\x7d" = "\x7b\"rating\": “买入”\x7d"
    ∧ (∃ e, parseJsonResponse (fun _ => "") "\x7b\"rating\": “买入”\x7d" = (.error e, 0)) :=
  ⟨fun _ _ => rfl, rfl, rfl, ⟨"无法从响应中解析出有效的JSON: Expecting value", rfl⟩⟩

/-! Claim C1. -/

theorem applyTaskResults_of_all_error (tasks : AgentRole → Except String ReviewResult)
    (l : List AgentRole) (h : ∀ r ∈ l, ∃ e, tasks r = .error e) (a : StockAnalysis) :
    applyTaskResults tasks l a = a := by
  induction l generalizing a with
  | nil => rfl
  | cons x xs ih =>
    obtain ⟨e, he⟩ := h x (by simp)
    have hstep : mergeTask tasks a x = a := by
      simp [mergeTask, he]
    simp only [applyTaskResults, List.foldl_cons, hstep]
    exact ih (fun r hr => h r (by simp [hr])) a

/-- Claim C1 counterexample: when the single enabled task raises, no review is
produced, `perform_analysis` propagates the invariant error raised by
`conduct_team_discussion`, and the aggregate is left IN_PROGRESS — it does not
end FAILED and `fail` is never reached, so the claim is false. -/
theorem C1_counterexample_exception_propagates :
    (performAnalysis llm0 (fun _ => .error "boom") ind0 [AgentRole.technical] a0).2
        = some "Cannot conduct discussion without any reviews."
    ∧ (performAnalysis llm0 (fun _ => .error "boom") ind0 [AgentRole.technical] a0).1.status
        = .IN_PROGRESS
    ∧ StockAnalysisStatus.IN_PROGRESS ≠ .FAILED :=
  ⟨rfl, rfl, by decide⟩

/-- Claim C1 (amended): if zero analyst tasks produce a review (all enabled
tasks raise, on an aggregate with no prior reviews), `perform_analysis` does
not call `fail` and does not stop gracefully: it raises the
`conduct_team_discussion` invariant error and leaves the aggregate exactly in
the started (IN_PROGRESS) state — the aggregate ends neither FAILED nor
COMPLETED and the exception propagates to the caller. -/
theorem C1_amended_all_tasks_failing_raises (llm : String → String → String)
    (tasks : AgentRole → Except String ReviewResult) (ind : String → Option String)
    (enabled : List AgentRole) (a : StockAnalysis)
    (hne : enabled ≠ [])
    (hfresh : ∀ r, a.reviews r = none)
    (hfail : ∀ r ∈ enabled, ∃ e, tasks r = .error e) :
    performAnalysis llm tasks ind enabled a
      = (a.start, some "Cannot conduct discussion without any reviews.") := by
  unfold performAnalysis
  have hemp : enabled.isEmpty = false := by
    simpa [List.isEmpty_iff] using hne
  rw [hemp]
  simp only [Bool.false_eq_true, if_false]
  rw [applyTaskResults_of_all_error tasks enabled hfail a.start]
  unfold conductTeamDiscussionStep
  have hnorev : (a.start).hasReviews = false :=
    hasReviews_eq_false_of_none _ (fun r => hfresh r)
  simp [StockAnalysis.conduct_team_discussion, hnorev]

/-- Claim C1 amended witness: the amended statement applied to a concrete run
whose single enabled task raises. -/
theorem C1_amended_witness :
    performAnalysis llm0 (fun _ => .error "network down") ind0 [AgentRole.fund_flow] a0
      = (a0.start, some "Cannot conduct discussion without any reviews.") :=
  C1_amended_all_tasks_failing_raises llm0 (fun _ => .error "network down") ind0
    [AgentRole.fund_flow] a0 (by simp) (fun _ => rfl)
    (fun r _ => ⟨"network down", rfl⟩)

/-! Claim C7. -/

theorem ite_update_comm (p q : AgentRole) (hpq : p ≠ q) (u v : Option AgentReview)
    (f : AgentRole → Option AgentReview) :
    (fun r => if r = p then u else if r = q then v else f r)
      = (fun r => if r = q then v else if r = p then u else f r) := by
  funext r
  by_cases h1 : r = p
  · subst h1
    rw [if_pos rfl, if_neg hpq, if_pos rfl]
  · by_cases h2 : r = q
    · subst h2
      rw [if_neg h1, if_pos rfl, if_pos rfl]
    · rw [if_neg h1, if_neg h2, if_neg h2, if_neg h1]

theorem addReviewStep_of_completed (a : StockAnalysis)
    (x : AgentRole × AnalysisContent × String) (hc : a.status = .COMPLETED) :
    addReviewStep a x = a := by
  simp [addReviewStep, StockAnalysis.add_review, hc]

theorem addReviewStep_of_not_completed (a : StockAnalysis)
    (x : AgentRole × AnalysisContent × String) (hc : ¬a.status = .COMPLETED) :
    addReviewStep a x
      = { a with
          reviews := fun r => if r = x.1 then some ⟨x.1, x.2.1, x.2.2⟩ else a.reviews r
          status := .IN_PROGRESS } := by
  simp [addReviewStep, StockAnalysis.add_review, hc]

theorem addReviewStep_comm (a : StockAnalysis)
    (x y : AgentRole × AnalysisContent × String) (hxy : x.1 ≠ y.1) :
    addReviewStep (addReviewStep a x) y = addReviewStep (addReviewStep a y) x := by
  by_cases hc : a.status = .COMPLETED
  · have ex := addReviewStep_of_completed a x hc
    have ey := addReviewStep_of_completed a y hc
    rw [ex, ey, ex]
  · rw [addReviewStep_of_not_completed a x hc, addReviewStep_of_not_completed a y hc,
      addReviewStep_of_not_completed _ y (by simp), addReviewStep_of_not_completed _ x (by simp)]
    dsimp only
    exact congrArg
      (fun f => ({ a with reviews := f, status := .IN_PROGRESS } : StockAnalysis))
      (ite_update_comm y.1 x.1 (fun h => hxy h.symm) (some ⟨y.1, y.2.1, y.2.2⟩)
        (some ⟨x.1, x.2.1, x.2.2⟩) a.reviews)

theorem addReviews_perm {l1 l2 : List (AgentRole × AnalysisContent × String)}
    (p : l1.Perm l2) :
    (l1.map Prod.fst).Nodup → ∀ a, addReviews l1 a = addReviews l2 a := by
  induction p with
  | nil => exact fun _ _ => rfl
  | cons x p ih =>
    intro hnd a
    simp only [List.map_cons, List.nodup_cons] at hnd
    simp only [addReviews, List.foldl_cons]
    exact ih hnd.2 (addReviewStep a x)
  | swap x y l =>
    intro hnd a
    have hxy : y.1 ≠ x.1 := by
      have h1 : y.1 ∉ (x :: l).map Prod.fst := (List.nodup_cons.mp (by simpa using hnd)).1
      simp only [List.map_cons, List.mem_cons] at h1
      exact fun h => h1 (Or.inl h)
    simp only [addReviews, List.foldl_cons]
    exact congrArg (fun s => List.foldl addReviewStep s l) (addReviewStep_comm a y x hxy)
  | trans p1 _ ih1 ih2 =>
    intro hnd a
    have hnd2 := (p1.map Prod.fst).nodup_iff.mp hnd
    rw [ih1 hnd a, ih2 hnd2 a]

/-- Claim C7 (confirmed): the discussion input is produced by folding the
fixed canonical role order over the review dictionary, so for any two
completion orders of the same settled reviews (one review per role) the
aggregate after merging is identical and the resulting team-discussion prompt
is the same. -/
theorem C7_discussion_prompt_order_independent
    (l1 l2 : List (AgentRole × AnalysisContent × String)) (a : StockAnalysis)
    (hperm : l1.Perm l2) (hnd : (l1.map Prod.fst).Nodup) :
    TEAM_DISCUSSION_PROMPT_format a.stock_info.symbol a.stock_info.name
        (agentsSummary ((addReviews l1 a).reviews))
      = TEAM_DISCUSSION_PROMPT_format a.stock_info.symbol a.stock_info.name
        (agentsSummary ((addReviews l2 a).reviews)) := by
  rw [addReviews_perm hperm hnd a]

/-- Claim C7 witness: merging a technical and a fundamental review in either
completion order yields the same discussion prompt. -/
theorem C7_witness :
    TEAM_DISCUSSION_PROMPT_format a0.stock_info.symbol a0.stock_info.name
        (agentsSummary ((addReviews
          [(AgentRole.technical, content0, "技术分析师"),
           (AgentRole.fundamental, content1, "基本面分析师")] a0).reviews))
      = TEAM_DISCUSSION_PROMPT_format a0.stock_info.symbol a0.stock_info.name
        (agentsSummary ((addReviews
          [(AgentRole.fundamental, content1, "基本面分析师"),
           (AgentRole.technical, content0, "技术分析师")] a0).reviews)) :=
  C7_discussion_prompt_order_independent
    [(AgentRole.technical, content0, "技术分析师"),
     (AgentRole.fundamental, content1, "基本面分析师")]
    [(AgentRole.fundamental, content1, "基本面分析师"),
     (AgentRole.technical, content0, "技术分析师")]
    a0
    (List.Perm.swap (AgentRole.fundamental, content1, "基本面分析师")
      (AgentRole.technical, content0, "技术分析师") [])
    (by decide)

/-! Claim C8. -/

theorem mergeTask_status_ne (tasks : AgentRole → Except String ReviewResult)
    (a : StockAnalysis) (x : AgentRole) (ha : ¬a.status = .COMPLETED) :
    ¬(mergeTask tasks a x).status = .COMPLETED := by
  cases htx : tasks x with
  | error e =>
    simp only [mergeTask, htx]
    exact ha
  | ok rr =>
    simp [mergeTask, StockAnalysis.add_review, htx, ha]

theorem mergeTask_reviews_isSome (tasks : AgentRole → Except String ReviewResult)
    (a : StockAnalysis) (x : AgentRole) (ha : ¬a.status = .COMPLETED) (r : AgentRole) :
    ((mergeTask tasks a x).reviews r).isSome
      = if r = x ∧ taskSucceeded (tasks x) then true else (a.reviews r).isSome := by
  cases htx : tasks x with
  | error e =>
    simp [mergeTask, htx, taskSucceeded]
  | ok rr =>
    simp only [mergeTask, StockAnalysis.add_review, htx, if_neg ha]
    by_cases hr : r = x
    · simp [hr, taskSucceeded]
    · simp [hr, taskSucceeded]

theorem applyTaskResults_status_ne (tasks : AgentRole → Except String ReviewResult)
    (l : List AgentRole) : ∀ a : StockAnalysis, ¬a.status = .COMPLETED →
    ¬(applyTaskResults tasks l a).status = .COMPLETED := by
  induction l with
  | nil => exact fun a ha => ha
  | cons x xs ih =>
    intro a ha
    simp only [applyTaskResults, List.foldl_cons]
    exact ih (mergeTask tasks a x) (mergeTask_status_ne tasks a x ha)

theorem applyTaskResults_reviews_isSome (tasks : AgentRole → Except String ReviewResult)
    (l : List AgentRole) : ∀ a : StockAnalysis, l.Nodup → ¬a.status = .COMPLETED →
    ∀ r, ((applyTaskResults tasks l a).reviews r).isSome
      = if r ∈ l ∧ taskSucceeded (tasks r) then true else (a.reviews r).isSome := by
  induction l with
  | nil =>
    intro a _ _ r
    simp [applyTaskResults]
  | cons x xs ih =>
    intro a hnd ha r
    obtain ⟨hx, hnd2⟩ := List.nodup_cons.mp hnd
    simp only [applyTaskResults, List.foldl_cons]
    rw [show List.foldl (mergeTask tasks) (mergeTask tasks a x) xs
          = applyTaskResults tasks xs (mergeTask tasks a x) from rfl]
    rw [ih (mergeTask tasks a x) hnd2 (mergeTask_status_ne tasks a x ha) r]
    rw [mergeTask_reviews_isSome tasks a x ha r]
    by_cases hok : taskSucceeded (tasks r) = true
    · by_cases hmem : r ∈ xs
      · simp [hmem, hok]
      · by_cases hrx : r = x
        · subst hrx
          simp [hmem, hok]
        · simp [hmem, hrx, hok]
    · by_cases hrx : r = x
      · subst hrx
        simp [hok]
      · simp [hok, hrx]

theorem exists_other_mem (enabled : List AgentRole) (r0 : AgentRole)
    (hlen : 2 ≤ enabled.length) (hnd : enabled.Nodup) :
    ∃ r1 ∈ enabled, r1 ≠ r0 := by
  cases enabled with
  | nil => simp at hlen
  | cons x t =>
    cases t with
    | nil => simp at hlen
    | cons y rest =>
      by_cases hx : x = r0
      · subst hx
        refine ⟨y, by simp, fun h => ?_⟩
        exact (List.nodup_cons.mp hnd).1 (by simp [h])
      · exact ⟨x, by simp, hx⟩

theorem count_of_characterization (enabled : List AgentRole) (r0 : AgentRole)
    (hnd : enabled.Nodup) (hr0 : r0 ∈ enabled) (a2 : StockAnalysis)
    (h : ∀ r, (a2.reviews r).isSome = decide (r ∈ enabled ∧ r ≠ r0)) :
    reviewCount a2 = enabled.length - 1 := by
  unfold reviewCount
  rw [List.filter_congr (fun r _ => h r)]
  have hperm : (allRoles.filter fun r => decide (r ∈ enabled ∧ r ≠ r0)).Perm
      (enabled.filter fun r => r != r0) := by
    apply (List.perm_ext_iff_of_nodup (allRoles_nodup.filter _) (hnd.filter _)).mpr
    intro x
    simp [List.mem_filter, mem_allRoles x, bne_iff_ne]
  rw [hperm.length_eq]
  rw [← hnd.erase_eq_filter r0]
  have := List.length_erase_add_one hr0
  omega

theorem finalizeFromResponse_truthy (a : StockAnalysis) (resp : String)
    (h : pyTruthyStr a.team_discussion = true) :
    ∃ d, finalizeFromResponse a resp
      = ({ a with final_decision := some d, status := .COMPLETED }, none) := by
  have hfin : ∀ d, a.finalize_decision d
      = .ok { a with final_decision := some d, status := .COMPLETED } := by
    intro d
    simp [StockAnalysis.finalize_decision, h]
  cases hm : jsonMatch resp with
  | none =>
    refine ⟨Json.obj [("decision_text", Json.str resp)], ?_⟩
    simp [finalizeFromResponse, hm, hfin]
  | some sub =>
    cases hl : jsonLoads sub with
    | ok j =>
      refine ⟨j, ?_⟩
      simp [finalizeFromResponse, hm, hl, hfin]
    | error e =>
      refine ⟨Json.obj [("decision_text", Json.str resp), ("error", Json.str e)], ?_⟩
      simp [finalizeFromResponse, hm, hl, hfin]

theorem conductTeamDiscussionStep_ok (llm : String → String → String)
    (hllm : ∀ s u, llm s u ≠ "") (ind : String → Option String)
    (a2 : StockAnalysis) (hrev : a2.hasReviews = true) :
    ∃ d dt, conductTeamDiscussionStep llm ind a2
      = ({ a2 with
            team_discussion := some dt
            final_decision := some d
            status := .COMPLETED }, none) := by
  simp only [conductTeamDiscussionStep]
  generalize hgen : llm "你现在是股票分析团队的主持人。"
    (TEAM_DISCUSSION_PROMPT_format a2.stock_info.symbol a2.stock_info.name
      (agentsSummary a2.reviews)) = dt
  have hdtne : dt ≠ "" := hgen ▸ hllm _ _
  have hcond : a2.conduct_team_discussion dt = .ok { a2 with team_discussion := some dt } := by
    simp [StockAnalysis.conduct_team_discussion, hrev]
  rw [hcond]
  simp only [makeFinalDecision]
  have htd : pyTruthyStr ({ a2 with team_discussion := some dt } :
      StockAnalysis).team_discussion = true := by
    simp [pyTruthyStr, hdtne]
  obtain ⟨d, hd⟩ := finalizeFromResponse_truthy _ _ htd
  exact ⟨d, dt, hd⟩

/-- Claim C8 counterexample: with a single enabled role whose task raises,
"every other task succeeds" holds vacuously and the review map does have
N − 1 = 0 entries, but the pipeline does not reach COMPLETED — it raises the
discussion invariant error and the aggregate stays IN_PROGRESS — so the claim
quantified over every N fails at N = 1. -/
theorem C8_counterexample_single_role :
    reviewCount (performAnalysis llm0 (fun _ => .error "task crash") ind0
        [AgentRole.news_analyst] a0).1 = 0
    ∧ (performAnalysis llm0 (fun _ => .error "task crash") ind0
        [AgentRole.news_analyst] a0).1.status = .IN_PROGRESS
    ∧ (performAnalysis llm0 (fun _ => .error "task crash") ind0
        [AgentRole.news_analyst] a0).2
        = some "Cannot conduct discussion without any reviews." :=
  ⟨rfl, rfl, rfl⟩

/-- Claim C8 (amended): for every run with N ≥ 2 distinct enabled roles on a
fresh aggregate, where exactly one task's settled outcome is an exception and
every other enabled task produced a review, the exception is absorbed by the
merge loop, the resulting review map has exactly N − 1 entries, no exception
propagates out of `perform_analysis`, and the aggregate reaches COMPLETED
(the gateway is the `call_api` wrapper, whose output is never empty). -/
theorem C8_amended_one_failure_reaches_completed
    (gw : String → String → Except String ChatMessage)
    (tasks : AgentRole → Except String ReviewResult) (ind : String → Option String)
    (enabled : List AgentRole) (a : StockAnalysis) (r0 : AgentRole)
    (hlen : 2 ≤ enabled.length) (hnd : enabled.Nodup) (hr0 : r0 ∈ enabled)
    (hfail : taskSucceeded (tasks r0) = false)
    (hok : ∀ r ∈ enabled, r ≠ r0 → taskSucceeded (tasks r) = true)
    (hfresh : ∀ r, a.reviews r = none) :
    (performAnalysis (fun s u => call_api (gw s u)) tasks ind enabled a).2 = none
    ∧ (performAnalysis (fun s u => call_api (gw s u)) tasks ind enabled a).1.status
        = .COMPLETED
    ∧ reviewCount (performAnalysis (fun s u => call_api (gw s u)) tasks ind enabled a).1
        = enabled.length - 1 := by
  have hemp : enabled.isEmpty = false := by
    cases enabled with
    | nil => simp at hlen
    | cons x t => rfl
  have ha1 : ¬(a.start).status = .COMPLETED := by
    simp [StockAnalysis.start]
  have hchar : ∀ r, ((applyTaskResults tasks enabled a.start).reviews r).isSome
      = decide (r ∈ enabled ∧ r ≠ r0) := by
    intro r
    rw [applyTaskResults_reviews_isSome tasks enabled a.start hnd ha1 r]
    by_cases hmem : r ∈ enabled
    · by_cases hrr : r = r0
      · subst hrr
        simp [hmem, hfail, StockAnalysis.start, hfresh]
      · simp [hmem, hok r hmem hrr, hrr]
    · simp [hmem, StockAnalysis.start, hfresh]
  obtain ⟨r1, hr1mem, hr1ne⟩ := exists_other_mem enabled r0 hlen hnd
  have hrev : (applyTaskResults tasks enabled a.start).hasReviews = true :=
    hasReviews_eq_true_of_isSome _ r1 (by rw [hchar r1]; simp [hr1mem, hr1ne])
  have hpa : performAnalysis (fun s u => call_api (gw s u)) tasks ind enabled a
      = conductTeamDiscussionStep (fun s u => call_api (gw s u)) ind
        (applyTaskResults tasks enabled a.start) := by
    simp only [performAnalysis, hemp, Bool.false_eq_true, if_false]
  obtain ⟨d, dt, heq⟩ := conductTeamDiscussionStep_ok (fun s u => call_api (gw s u))
    (fun s u => call_api_ne_empty (gw s u)) ind (applyTaskResults tasks enabled a.start) hrev
  rw [hpa, heq]
  refine ⟨rfl, rfl, ?_⟩
  exact count_of_characterization enabled r0 hnd hr0 _ (fun r => hchar r)

/-- Claim C8 amended witness: two enabled roles, the technical task raising and
the fundamental task succeeding, reach COMPLETED with one review and no
propagated exception. -/
theorem C8_amended_witness :
    (performAnalysis (fun s u => call_api ((fun _ _ => .ok
        { reasoning_content := none, content := some "讨论文本" }) s u)) tasks0 ind0
        [AgentRole.technical, AgentRole.fundamental] a0).2 = none
    ∧ (performAnalysis (fun s u => call_api ((fun _ _ => .ok
        { reasoning_content := none, content := some "讨论文本" }) s u)) tasks0 ind0
        [AgentRole.technical, AgentRole.fundamental] a0).1.status = .COMPLETED
    ∧ reviewCount (performAnalysis (fun s u => call_api ((fun _ _ => .ok
        { reasoning_content := none, content := some "讨论文本" }) s u)) tasks0 ind0
        [AgentRole.technical, AgentRole.fundamental] a0).1
        = [AgentRole.technical, AgentRole.fundamental].length - 1 :=
  C8_amended_one_failure_reaches_completed
    (fun _ _ => .ok { reasoning_content := none, content := some "讨论文本" })
    tasks0 ind0 [AgentRole.technical, AgentRole.fundamental] a0 AgentRole.technical
    (by decide) (by decide) (by decide) (by decide)
    (by
      intro r hr hne
      rcases (List.mem_cons.mp hr) with h | h
      · exact absurd h hne
      · rcases (List.mem_cons.mp h) with h2 | h2
        · subst h2
          rfl
        · simp at h2)
    (fun _ => rfl)

end AiagentsStock
